import Mathlib

/-!
Verification of the finboard-dashboard data pipeline.

This file gives a shallow embedding, in Lean 4, of the pure core of the
repository: the JS value and number model needed by the utility functions,
the utilities in src/unnamed/part_005 (getNestedValue, flattenKeys,
formatValue), the in-memory TTL cache in src/utils/cache.ts, the payload
error check and values-shape normalizer of the universal fetcher
(src/unnamed/part_002, src/unnamed/part_001), its URL decoration step, and
the field-selection and save logic of the widget editor
(src/unnamed/part_003).  JS machine floats are modelled as exact rationals
(constructor JsNum.finite) together with the three non-finite values; the
binary64 rounding of arithmetic is not needed by any statement proved here,
since the code under study only parses literals and compares or reformats
them.
-/

namespace FinBoard

/-- Model of a JS number: an exact rational, or one of the three non-finite
values.  Rounding to binary64 is not modelled; every number handled by the
statements below is produced by parsing a decimal literal. -/
inductive JsNum where
  | finite (q : ℚ)
  | inf
  | negInf
  | nan
deriving DecidableEq, Repr

/-- Whitespace test used by the model of String.prototype.trim and of the
leading-whitespace skipping of parseFloat, parseInt and ToNumber.  The JS
whitespace set also holds exotic Unicode spaces that never occur in the
repository data; the common ASCII whitespace characters are modelled. -/
def isWsChar (c : Char) : Bool :=
  c == ' ' || c == '\t' || c == '\n' || c == '\r' || c == '\x0b' || c == '\x0c'

/-- Drop leading and trailing whitespace from a character list. -/
def trimBoth (l : List Char) : List Char :=
  ((l.dropWhile isWsChar).reverse.dropWhile isWsChar).reverse

/-- Model of JS String.prototype.trim. -/
def jsTrim (s : String) : String :=
  String.mk (trimBoth s.data)

/-- Numeric value of a list of decimal digit characters. -/
def digitsToNat (l : List Char) : Nat :=
  l.foldl (fun a c => a * 10 + (c.toNat - 48)) 0

/-- Fractional value of the digit list written after a decimal point. -/
def fracToRat (l : List Char) : ℚ :=
  (digitsToNat l : ℚ) / ((10 : ℚ) ^ l.length)

/-- Scale a mantissa by the exponent tail of a numeric literal, when the
characters after the mantissa start a well-formed exponent. -/
def expTail (mant : ℚ) (r : List Char) : ℚ :=
  let (negE, r2) : Bool × List Char :=
    match r with
    | '+' :: t => (false, t)
    | '-' :: t => (true, t)
    | t => (false, t)
  let eD := r2.takeWhile Char.isDigit
  if eD.isEmpty then mant
  else if negE then mant / (10 : ℚ) ^ (digitsToNat eD) else mant * (10 : ℚ) ^ (digitsToNat eD)

/-- Apply an optional exponent marker to a parsed mantissa (parseFloat
semantics: a malformed exponent tail is simply ignored). -/
def applyExp (mant : ℚ) (rest : List Char) : ℚ :=
  match rest with
  | 'e' :: r => expTail mant r
  | 'E' :: r => expTail mant r
  | _ => mant

/-- Parse the longest decimal-literal magnitude at the head of the list, as
JS parseFloat does after sign handling: integer digits, an optional
fractional part, an optional exponent.  Returns none when no digit is
found, which parseFloat reports as NaN. -/
def parseFloatMagnitude (l : List Char) : Option ℚ :=
  let intD := l.takeWhile Char.isDigit
  let rest1 := l.drop intD.length
  let (fracD, rest2) : List Char × List Char :=
    match rest1 with
    | '.' :: r => (r.takeWhile Char.isDigit, r.drop (r.takeWhile Char.isDigit).length)
    | _ => ([], rest1)
  if intD.isEmpty && fracD.isEmpty then none
  else some (applyExp ((digitsToNat intD : ℚ) + fracToRat fracD) rest2)

/-- Model of JS parseFloat: skip leading whitespace, read an optional sign,
accept an Infinity literal, otherwise parse the longest decimal prefix and
ignore every trailing character; NaN when no digit is found. -/
def jsParseFloat (s : String) : JsNum :=
  let t := s.data.dropWhile isWsChar
  let (neg, t2) : Bool × List Char :=
    match t with
    | '-' :: r => (true, r)
    | '+' :: r => (false, r)
    | r => (false, r)
  if "Infinity".data.isPrefixOf t2 then (if neg then JsNum.negInf else JsNum.inf)
  else
    match parseFloatMagnitude t2 with
    | none => JsNum.nan
    | some q => JsNum.finite (if neg then -q else q)

/-- Model of JS parseInt with radix 10: skip leading whitespace, read an
optional sign, take the longest run of decimal digits and ignore the rest;
NaN when no digit is found.  The result is always an integer. -/
def jsParseInt (s : String) : JsNum :=
  let t := s.data.dropWhile isWsChar
  let (neg, t2) : Bool × List Char :=
    match t with
    | '-' :: r => (true, r)
    | '+' :: r => (false, r)
    | r => (false, r)
  let d := t2.takeWhile Char.isDigit
  if d.isEmpty then JsNum.nan
  else JsNum.finite (if neg then -(digitsToNat d : ℚ) else (digitsToNat d : ℚ))

/-- Parse a full string body as a decimal literal (ToNumber semantics: the
whole remaining input must be consumed, and an exponent marker must be
followed by at least one digit).  Hexadecimal, octal and binary literal
forms, which never occur in the repository data, are not modelled. -/
def parseNumFull (l : List Char) : Option ℚ :=
  let intD := l.takeWhile Char.isDigit
  let rest1 := l.drop intD.length
  let (fracD, rest2) : List Char × List Char :=
    match rest1 with
    | '.' :: r => (r.takeWhile Char.isDigit, r.drop (r.takeWhile Char.isDigit).length)
    | _ => ([], rest1)
  if intD.isEmpty && fracD.isEmpty then none
  else
    let mant : ℚ := (digitsToNat intD : ℚ) + fracToRat fracD
    match rest2 with
    | [] => some mant
    | 'e' :: r => parseExpFull mant r
    | 'E' :: r => parseExpFull mant r
    | _ => none
where
  /-- Exponent tail for ToNumber: sign then one or more digits, consuming
  everything. -/
  parseExpFull (mant : ℚ) (r : List Char) : Option ℚ :=
    let (negE, r2) : Bool × List Char :=
      match r with
      | '+' :: t => (false, t)
      | '-' :: t => (true, t)
      | t => (false, t)
    let eD := r2.takeWhile Char.isDigit
    if eD.isEmpty then none
    else if (r2.drop eD.length).isEmpty then
      some (if negE then mant / (10 : ℚ) ^ (digitsToNat eD) else mant * (10 : ℚ) ^ (digitsToNat eD))
    else none

/-- Model of JS ToNumber on a string: trim, an empty remainder is 0, an
optional sign followed by an Infinity literal or a full decimal literal,
anything else is NaN. -/
def strToNumber (s : String) : JsNum :=
  let t := trimBoth s.data
  if t.isEmpty then JsNum.finite 0
  else
    let (neg, t2) : Bool × List Char :=
      match t with
      | '-' :: r => (true, r)
      | '+' :: r => (false, r)
      | r => (false, r)
    if t2 = "Infinity".data then (if neg then JsNum.negInf else JsNum.inf)
    else
      match parseNumFull t2 with
      | some q => JsNum.finite (if neg then -q else q)
      | none => JsNum.nan

/-- Model of a JS runtime value as it flows through the utility functions:
the JSON tree constructors plus undefined. -/
inductive JsVal where
  | null
  | undef
  | bool (b : Bool)
  | num (n : JsNum)
  | str (s : String)
  | arr (elems : List JsVal)
  | obj (fields : List (String × JsVal))
deriving Repr

/-- JS truthiness of a value, as used by the guards of getNestedValue and
by the short-circuiting of the payload error message chain. -/
def truthy : JsVal → Bool
  | .undef => false
  | .null => false
  | .bool b => b
  | .num (.finite q) => q != 0
  | .num .nan => false
  | .num .inf => true
  | .num .negInf => true
  | .str s => s != ""
  | .arr _ => true
  | .obj _ => true

/-- Is the value null or undefined (the elements Array.prototype.join
renders as the empty string). -/
def isNullish : JsVal → Bool
  | .null => true
  | .undef => true
  | _ => false

/-- Fraction digits of num/den produced by decimal long division, bounded
by the given fuel. -/
def qDigits : Nat → Nat → Nat → List Char
  | 0, _, _ => []
  | _ + 1, 0, _ => []
  | fuel + 1, num, den =>
      Char.ofNat (48 + num * 10 / den) :: qDigits fuel (num * 10 % den) den

/-- Decimal rendering of an exact rational.  JS prints the shortest decimal
that round-trips through binary64; for the integer values actually reaching
this renderer in the statements below the two notions agree, and for other
rationals the expansion is cut after 17 digits. -/
def qToDecimalString (q : ℚ) : String :=
  let sign := if q < 0 then "-" else ""
  let n := q.num.natAbs
  let d := q.den
  if n % d = 0 then sign ++ toString (n / d)
  else sign ++ toString (n / d) ++ "." ++ String.mk (qDigits 17 (n % d) d)

/-- Model of JS Number.prototype.toString for the number model. -/
def jsNumToString : JsNum → String
  | .nan => "NaN"
  | .inf => "Infinity"
  | .negInf => "-Infinity"
  | .finite q => qToDecimalString q

/-- Model of JS String(value): the ToString coercion, with arrays joined by
commas and plain objects rendered as the usual tag. -/
def jsToString : JsVal → String
  | .undef => "undefined"
  | .null => "null"
  | .bool true => "true"
  | .bool false => "false"
  | .num n => jsNumToString n
  | .str s => s
  | .obj _ => "[object Object]"
  | .arr l =>
      String.intercalate "," (l.attach.map (fun e =>
        if isNullish e.1 then "" else jsToString e.1))
termination_by v => sizeOf v
decreasing_by
  simp_wf
  have h := List.sizeOf_lt_of_mem e.2
  omega

/-- Model of JS Number(value): the ToNumber coercion.  Arrays convert
through their joined string form, plain objects to NaN. -/
def toNumber : JsVal → JsNum
  | .undef => .nan
  | .null => .finite 0
  | .bool b => .finite (if b then 1 else 0)
  | .num n => n
  | .str s => strToNumber s
  | .obj _ => .nan
  | .arr l => strToNumber (jsToString (.arr l))

/-- Round a nonnegative rational to the nearest integer, half away from
zero, as the default rounding of toFixed and Intl.NumberFormat behaves on
the decimal values reaching them here. -/
def roundHalfUp (q : ℚ) : Nat :=
  (q + 1 / 2).floor.toNat

/-- Two-digit zero-padded rendering of a value below 100. -/
def pad2 (n : Nat) : String :=
  if n < 10 then "0" ++ toString n else toString n

/-- Insert a comma after every three characters of a reversed digit list
(thousands grouping, working from the least significant end). -/
def group3Aux (l : List Char) : List Char :=
  if l.length ≤ 3 then l
  else l.take 3 ++ ',' :: group3Aux (l.drop 3)
termination_by l.length
decreasing_by
  simp_wf
  omega

/-- en-US thousands grouping of a digit string. -/
def groupDigits (s : String) : String :=
  String.mk ((group3Aux s.data.reverse).reverse)

/-- Modelled platform behavior of Intl.NumberFormat en-US with style
currency USD and exactly two fraction digits, as constructed by
formatValue.  Non-finite inputs follow the ICU renderings. -/
def jsIntlCurrency : JsNum → String
  | .nan => "$NaN"
  | .inf => "$∞"
  | .negInf => "-$∞"
  | .finite q =>
      let cents := roundHalfUp (|q| * 100)
      (if q < 0 then "-" else "") ++ "$" ++ groupDigits (toString (cents / 100)) ++ "." ++
        pad2 (cents % 100)

/-- Modelled platform behavior of Intl.NumberFormat en-US with zero to two
fraction digits, as constructed by formatValue. -/
def jsIntlNumber : JsNum → String
  | .nan => "NaN"
  | .inf => "∞"
  | .negInf => "-∞"
  | .finite q =>
      let cents := roundHalfUp (|q| * 100)
      let frac :=
        if cents % 100 = 0 then ""
        else if cents % 100 % 10 = 0 then "." ++ toString (cents % 100 / 10)
        else "." ++ pad2 (cents % 100)
      (if q < 0 then "-" else "") ++ groupDigits (toString (cents / 100)) ++ frac

/-- Modelled platform behavior of Number.prototype.toFixed with two
fraction digits, used by the percentage branch of formatValue. -/
def jsToFixed2 : JsNum → String
  | .nan => "NaN"
  | .inf => "Infinity"
  | .negInf => "-Infinity"
  | .finite q =>
      let cents := roundHalfUp (|q| * 100)
      (if q < 0 then "-" else "") ++ toString (cents / 100) ++ "." ++ pad2 (cents % 100)

/-- The two locale-dependent formatters formatValue obtains from
Intl.NumberFormat.  Keeping them as a parameter lets every statement about
formatValue hold for an arbitrary locale library; jsIntl below is the
concrete en-US model the source requests. -/
structure IntlModel where
  currency : JsNum → String
  numberFmt : JsNum → String

/-- The en-US instance of the locale model. -/
def jsIntl : IntlModel :=
  ⟨jsIntlCurrency, jsIntlNumber⟩

/-- Embedding of formatValue from src/unnamed/part_005: N/A for nullish
input, the plain string form when the ToNumber coercion is NaN, otherwise
dispatch on the requested format kind with the plain string form as the
default branch. -/
def formatValue (intl : IntlModel) (value : JsVal) (format : Option String) : String :=
  match value with
  | JsVal.undef => "N/A"
  | JsVal.null => "N/A"
  | v =>
      let num := toNumber v
      if num = JsNum.nan then jsToString v
      else
        match format with
        | some "currency" => intl.currency num
        | some "percentage" => jsToFixed2 num ++ "%"
        | some "number" => intl.numberFmt num
        | _ => jsToString v

/-- Split a character list at every dot, JS String.prototype.split with a
dot separator: the result is never empty and keeps empty segments. -/
def splitCharAux : List Char → List Char → List String
  | [], acc => [String.mk acc.reverse]
  | c :: rest, acc =>
      if c = '.' then String.mk acc.reverse :: splitCharAux rest []
      else splitCharAux rest (c :: acc)

/-- JS path.split with a dot separator. -/
def splitDot (s : String) : List String :=
  splitCharAux s.data []

/-- Modelled platform behavior of JS property access prev[curr] on a truthy
base value, restricted to the shapes the repository reads: own fields of
plain objects and canonical numeric indices of arrays; every other access
yields undefined. -/
def getProp (v : JsVal) (k : String) : JsVal :=
  match v with
  | JsVal.obj kvs =>
      match kvs.find? (fun kv => kv.1 == k) with
      | some kv => kv.2
      | none => JsVal.undef
  | JsVal.arr l =>
      match k.toNat? with
      | some i => if toString i == k then l.getD i JsVal.undef else JsVal.undef
      | none => JsVal.undef
  | _ => JsVal.undef

/-- The reduce step of getNestedValue: walk the split segments, reading a
property when the accumulator is truthy and collapsing to undefined
otherwise. -/
def resolveSegs (v : JsVal) : List String → JsVal
  | [] => v
  | s :: rest => resolveSegs (if truthy v then getProp v s else JsVal.undef) rest

/-- Embedding of getNestedValue from src/unnamed/part_005. -/
def getNestedValue (o : JsVal) (path : String) : JsVal :=
  if path = "" || path = "." then o
  else if !(truthy o) then JsVal.undef
  else resolveSegs o (splitDot path)

/-- JS test typeof x === the object tag: true for null, arrays and plain
objects, false for undefined and the primitives. -/
def typeofIsObject : JsVal → Bool
  | .null => true
  | .arr _ => true
  | .obj _ => true
  | _ => false

/-- Path built for a key under a prefix string, as the template
`prefix ? prefix + "." + key : key` computes it (an empty prefix is falsy
in JS, so the key stands alone). -/
def mkPath (p k : String) : String :=
  if p = "" then k else p ++ "." ++ k

mutual

/-- Embedding of flattenKeys from src/unnamed/part_005.  A null or
undefined value yields nothing; an array at the root is emitted under the
empty path and its first element is flattened when it is object-typed; a
non-root array or a primitive at the top level yields nothing; an object is
walked key by key, emitting arrays and scalars directly and recursing into
nested objects and into the first element of object arrays. -/
def flattenKeys : JsVal → String → List (String × JsVal)
  | JsVal.null, _ => []
  | JsVal.undef, _ => []
  | JsVal.bool _, _ => []
  | JsVal.num _, _ => []
  | JsVal.str _, _ => []
  | JsVal.arr l, p =>
      if p = "" then ("", JsVal.arr l) :: headFlatten l "" else []
  | JsVal.obj kvs, p => flattenObj kvs p
termination_by v _ => sizeOf v
decreasing_by
  all_goals simp_wf

/-- The recursion of flattenKeys into the first element of an array, taken
only when the array is nonempty and its first element is object-typed. -/
def headFlatten : List JsVal → String → List (String × JsVal)
  | [], _ => []
  | h :: _, p => if typeofIsObject h then flattenKeys h p else []
termination_by l _ => sizeOf l
decreasing_by
  all_goals (simp_wf; omega)

/-- The for-in loop of flattenKeys over the fields of an object. -/
def flattenObj : List (String × JsVal) → String → List (String × JsVal)
  | [], _ => []
  | (k, v) :: rest, p =>
      (match v with
       | JsVal.arr l2 => (mkPath p k, JsVal.arr l2) :: headFlatten l2 (mkPath p k)
       | JsVal.obj kvs2 => flattenKeys (JsVal.obj kvs2) (mkPath p k)
       | sv => [(mkPath p k, sv)])
      ++ flattenObj rest p
termination_by kvs _ => sizeOf kvs
decreasing_by
  all_goals simp_wf <;> omega

end

/-- Direct entries of the object loop: one entry per key whose value is not
a nested object. -/
def directObj : List (String × JsVal) → String → List (String × JsVal)
  | [], _ => []
  | (k, v) :: rest, p =>
      (match v with
       | JsVal.obj _ => []
       | sv => [(mkPath p k, sv)])
      ++ directObj rest p

/-- The entries flattenKeys pushes directly during one invocation, before
the results of its recursive calls are appended: the claim about path
uniqueness at a single nesting level is stated over these. -/
def directEntries : JsVal → String → List (String × JsVal)
  | JsVal.arr l, p => if p = "" then [("", JsVal.arr l)] else []
  | JsVal.obj kvs, p => directObj kvs p
  | _, _ => []

/-- One element of the values array of a time-series payload, with the six
string fields the provider sends. -/
structure RawTsRecord where
  datetime : String
  «open» : String
  high : String
  low : String
  close : String
  volume : String
deriving DecidableEq, Repr

/-- One normalized time-series point as built by the values branch of the
universal fetcher: OHLC through parseFloat, volume through parseInt. -/
structure TsPoint where
  time : String
  «open» : JsNum
  high : JsNum
  low : JsNum
  close : JsNum
  volume : JsNum
deriving DecidableEq, Repr

/-- The mapping the values branch applies to a single record. -/
def transformValuesItem (r : RawTsRecord) : TsPoint :=
  { time := r.datetime
    «open» := jsParseFloat r.«open»
    high := jsParseFloat r.high
    low := jsParseFloat r.low
    close := jsParseFloat r.close
    volume := jsParseInt r.volume }

/-- Embedding of the values branch of the universal fetcher
(src/unnamed/part_002): map every record and reverse the result so the
series runs oldest-first. -/
def normalizeValues (l : List RawTsRecord) : List TsPoint :=
  (l.map transformValuesItem).reverse

/-- The fields of a fetched payload the error check and the values branch
read.  Marker fields that are absent from the JSON are none. -/
structure ApiPayload where
  note : Option String
  information : Option String
  status : Option String
  message : Option String
  code : Option Int
  values : Option (List RawTsRecord)
deriving DecidableEq, Repr

/-- JS truthiness of an optional string field of the payload. -/
def optTruthy : Option String → Bool
  | some s => s != ""
  | none => false

/-- Embedding of the provider error test of the universal fetcher:
data.Note or data.Information truthy, data.status strictly equal to the
error tag, or data.code strictly equal to 429. -/
def isApiError (p : ApiPayload) : Bool :=
  optTruthy p.note || optTruthy p.information ||
    (match p.status with
     | some s => s == "error"
     | none => false) ||
    (match p.code with
     | some c => c == 429
     | none => false)

/-- Embedding of the thrown message chain
data.Note, data.Information, data.message, then the fixed fallback text,
with JS short-circuiting on truthiness. -/
def apiErrorMsg (p : ApiPayload) : String :=
  if optTruthy p.note then p.note.getD ""
  else if optTruthy p.information then p.information.getD ""
  else if optTruthy p.message then p.message.getD ""
  else "API rate limit reached"

/-- Outcome of a successful fetch after the transform step: a normalized
series for a values-shaped payload, the payload untouched otherwise. -/
inductive FetchOutcome where
  | series (pts : List TsPoint)
  | raw (p : ApiPayload)
deriving DecidableEq, Repr

/-- Embedding of the error check and values transform the universal fetcher
runs on a parsed payload: a recognized provider error marker raises the
failure with the chained message, otherwise a values-shaped payload is
normalized and any other object is returned unchanged. -/
def processPayload (p : ApiPayload) : Except String FetchOutcome :=
  if isApiError p then Except.error (apiErrorMsg p)
  else
    match p.values with
    | some l => Except.ok (FetchOutcome.series (normalizeValues l))
    | none => Except.ok (FetchOutcome.raw p)

/-- One cache slot: the stored value and its absolute expiry time in
milliseconds. -/
structure CEntry (α : Type) where
  data : α
  expiry : Nat
deriving DecidableEq, Repr

/-- The in-memory cache of src/utils/cache.ts, a JS Map modelled as an
insertion-ordered association list whose keys stay unique under the Map
operations. -/
abbrev CacheState (α : Type) : Type :=
  List (String × CEntry α)

/-- Map.prototype.get. -/
def mapGet {α : Type} (c : CacheState α) (k : String) : Option (CEntry α) :=
  match c.find? (fun e => e.1 == k) with
  | some e => some e.2
  | none => none

/-- Map.prototype.set: replace in place when the key exists, append
otherwise. -/
def mapSet {α : Type} (c : CacheState α) (k : String) (e : CEntry α) : CacheState α :=
  match c with
  | [] => [(k, e)]
  | (k0, e0) :: rest => if k0 = k then (k, e) :: rest else (k0, e0) :: mapSet rest k e

/-- Map.prototype.delete restricted to its effect on the entries. -/
def mapDelete {α : Type} (c : CacheState α) (k : String) : CacheState α :=
  c.filter (fun e => e.1 != k)

/-- Embedding of getCachedData: absent key gives null and leaves the map
alone; an entry whose expiry lies strictly in the past is deleted and
reported as null; otherwise the stored data is returned.  The ambient clock
is passed explicitly, and the possibly updated map is returned alongside
the result. -/
def getCachedData {α : Type} (now : Nat) (c : CacheState α) (k : String) :
    Option α × CacheState α :=
  match mapGet c k with
  | none => (none, c)
  | some e => if now > e.expiry then (none, mapDelete c k) else (some e.data, c)

/-- Embedding of setCachedData: store the value under the key with expiry
now + ttlSeconds * 1000 milliseconds. -/
def setCachedData {α : Type} (now : Nat) (c : CacheState α) (k : String) (v : α)
    (ttlSeconds : Nat) : CacheState α :=
  mapSet c k ⟨v, now + ttlSeconds * 1000⟩

/-- Embedding of getCacheSize: Map.prototype.size. -/
def getCacheSize {α : Type} (c : CacheState α) : Nat :=
  c.length

/-- Does the pattern occur as a prefix somewhere in the list: the model of
JS String.prototype.includes on the character lists. -/
def containsSub : List Char → List Char → Bool
  | pat, [] => pat.isEmpty
  | pat, c :: rest => pat.isPrefixOf (c :: rest) || containsSub pat rest

/-- Number of positions of the list where the pattern occurs. -/
def countOccur : List Char → List Char → Nat
  | pat, [] => if pat.isEmpty then 1 else 0
  | pat, c :: rest => (if pat.isPrefixOf (c :: rest) then 1 else 0) + countOccur pat rest

/-- JS url.includes(pat) on the string level. -/
def strIncludes (pat s : String) : Bool :=
  containsSub pat.data s.data

/-- Embedding of the URL decoration step of the universal fetcher
(src/unnamed/part_001): trim, then walk the provider chain and append the
matching credential parameter when the domain substring is present and the
parameter substring is absent, choosing the ampersand separator exactly
when the trimmed URL already holds a question mark.  The three environment
credentials are passed as parameters. -/
def decorateUrl (finnhubKey alphaKey twelveKey rawUrl : String) : String :=
  let u := jsTrim rawUrl
  if strIncludes "finnhub.io" u && !(strIncludes "token=" u) then
    u ++ (if strIncludes "?" u then "&" else "?") ++ "token=" ++ finnhubKey
  else if strIncludes "alphavantage.co" u && !(strIncludes "apikey=" u) then
    u ++ (if strIncludes "?" u then "&" else "?") ++ "apikey=" ++ alphaKey
  else if strIncludes "twelvedata.com" u && !(strIncludes "apikey=" u) then
    u ++ (if strIncludes "?" u then "&" else "?") ++ "apikey=" ++ twelveKey
  else u

/-- The fallback credential strings committed in src/unnamed/part_001,
used when the environment variables are absent. -/
def FINNHUB_KEY_FALLBACK : String := "d5qufi9r01qhn30i0psgd5qufi9r01qhn30i0pt0"

/-- Alpha Vantage fallback credential of src/unnamed/part_001. -/
def ALPHA_KEY_FALLBACK : String := "6ZSQH79GKCMMCCVF"

/-- Twelve Data fallback credential of src/unnamed/part_001. -/
def TWELVE_KEY_FALLBACK : String := "0e94f45d1f31458c999a2e65b72ed369"

/-- A selected field of the widget editor: a dotted path and its display
label (the optional display format is edited separately and does not
matter to the statements below). -/
structure SelectedField where
  path : String
  label : String
deriving DecidableEq, Repr

/-- The label the editor derives from a path:
path.split(dot).pop() || path, so the last split segment unless that
segment is the empty string, in which case the whole path. -/
def jsLastSegLabel (p : String) : String :=
  let seg := (splitDot p).getLastD ""
  if seg = "" then p else seg

/-- Embedding of addField from src/unnamed/part_003: a no-op when some
selected field already carries the path, otherwise append one field with
the derived label. -/
def addField (fields : List SelectedField) (p : String) : List SelectedField :=
  match fields.find? (fun f => f.path == p) with
  | some _ => fields
  | none => fields ++ [{ path := p, label := jsLastSegLabel p }]

/-- Embedding of removeField from src/unnamed/part_003. -/
def removeField (fields : List SelectedField) (p : String) : List SelectedField :=
  fields.filter (fun f => f.path != p)

/-- Display mode of a widget. -/
inductive DisplayMode where
  | card
  | table
  | chart
  | candlestick
deriving DecidableEq, Repr

/-- The persisted widget configuration, with the fields the save workflow
writes. -/
structure WidgetConfig where
  id : String
  name : String
  apiUrl : String
  refreshInterval : Nat
  displayMode : DisplayMode
  selectedFields : List SelectedField
  createdAt : Nat
deriving DecidableEq, Repr

/-- Result of one press of the save button. -/
inductive SaveOutcome where
  | rejected (msg : String)
  | saved (cfg : WidgetConfig)
deriving DecidableEq, Repr

/-- The alert text handleSave raises on a failed validation. -/
def saveValidationMsg : String :=
  "Please enter a name, URL, and select at least one field."

/-- Embedding of handleSave from src/unnamed/part_003: reject with the
validation message when the name or URL is empty or no field is selected;
otherwise build the configuration, taking the id and creation time from
the edited widget when they are truthy and from the fresh generator and
clock otherwise. -/
def handleSave (initialCfg : Option WidgetConfig) (name url : String)
    (refresh : Nat) (mode : DisplayMode) (fields : List SelectedField)
    (genId : String) (nowMs : Nat) : SaveOutcome :=
  if name = "" || url = "" || fields.length == 0 then
    SaveOutcome.rejected saveValidationMsg
  else
    SaveOutcome.saved
      { id :=
          match initialCfg with
          | some c => if c.id = "" then genId else c.id
          | none => genId
        name := name
        apiUrl := url
        refreshInterval := refresh
        displayMode := mode
        selectedFields := fields
        createdAt :=
          match initialCfg with
          | some c => if c.createdAt = 0 then nowMs else c.createdAt
          | none => nowMs }

/-- Embedding of the surrounding save workflow: handleSave feeds onSave,
which App.tsx routes to updateWidget (replace by id) while editing and to
addWidget (append) otherwise; a rejected save leaves the widget list
untouched and surfaces the validation message. -/
def saveWorkflow (widgets : List WidgetConfig) (initialCfg : Option WidgetConfig)
    (name url : String) (refresh : Nat) (mode : DisplayMode)
    (fields : List SelectedField) (genId : String) (nowMs : Nat) :
    List WidgetConfig × Option String :=
  match handleSave initialCfg name url refresh mode fields genId nowMs with
  | SaveOutcome.rejected m => (widgets, some m)
  | SaveOutcome.saved cfg =>
      match initialCfg with
      | some _ => (widgets.map (fun w => if w.id == cfg.id then cfg else w), none)
      | none => (widgets ++ [cfg], none)

/-- A values payload carrying only the provider error note of the spec
example. -/
def ratePayload : ApiPayload :=
  ⟨some "rate limited", none, none, none, none, none⟩

/-- C6: formatValue is total over every input value and format kind — the
embedding is a total function, witnessed by the third conjunct — and for
every format kind it returns the literal string N/A when the value is null
or undefined. -/
theorem formatValue_total_and_nullish (intl : IntlModel) (fmt : Option String) :
    formatValue intl JsVal.null fmt = "N/A" ∧
    formatValue intl JsVal.undef fmt = "N/A" ∧
    (∀ v : JsVal, ∃ s : String, formatValue intl v fmt = s) :=
  ⟨rfl, rfl, fun _ => ⟨_, rfl⟩⟩

/-- C5 counterexample: the string Infinity coerces to the non-finite number
Infinity, which is not caught by the isNaN guard of formatValue, so the
currency format does not fall back to the plain string form of the value as
the claim asserts for every value that cannot be coerced to a finite
number. -/
theorem formatValue_infinity_cex :
    toNumber (JsVal.str "Infinity") = JsNum.inf ∧
    jsToString (JsVal.str "Infinity") = "Infinity" ∧
    formatValue jsIntl (JsVal.str "Infinity") (some "currency") ≠
      jsToString (JsVal.str "Infinity") := by
  refine ⟨by decide, by simp [jsToString], ?_⟩
  have h : jsToString (JsVal.str "Infinity") = "Infinity" := by simp [jsToString]
  rw [h]
  decide

/-- C5 amended: formatValue falls back to the plain string form of the
value, for every format kind, exactly when the ToNumber coercion is NaN
(not for every non-finite coercion: Infinity is formatted numerically); in
particular formatValue applied to the string abc with the currency kind
returns abc. -/
theorem formatValue_nan_fallback (intl : IntlModel) (v : JsVal) (fmt : Option String)
    (hnan : toNumber v = JsNum.nan) (hv : v ≠ JsVal.undef) :
    formatValue intl v fmt = jsToString v ∧
    formatValue jsIntl (JsVal.str "abc") (some "currency") = "abc" := by
  constructor
  · cases v with
    | undef => exact absurd rfl hv
    | null => exact absurd hnan (by decide)
    | bool b => simp [formatValue, hnan]
    | num n => simp [formatValue, hnan]
    | str s => simp [formatValue, hnan]
    | arr l => simp [formatValue, hnan]
    | obj kvs => simp [formatValue, hnan]
  · have h : toNumber (JsVal.str "abc") = JsNum.nan := by decide
    simp [formatValue, h, jsToString]

/-- C5 witness: the fallback theorem applied at the concrete input abc with
the currency kind. -/
theorem formatValue_nan_fallback_witness :
    formatValue jsIntl (JsVal.str "abc") (some "currency") = jsToString (JsVal.str "abc") ∧
    formatValue jsIntl (JsVal.str "abc") (some "currency") = "abc" :=
  formatValue_nan_fallback jsIntl (JsVal.str "abc") (some "currency") (by decide)
    (fun h => nomatch h)

/-- C2: a payload carrying a recognized provider error marker makes the
fetch raise a failure instead of returning data; the message is the note
when one is present and nonempty, and the generic fallback text when no
note, information or message field is present; the spec example payload
with note rate limited raises exactly that message. -/
theorem universalFetcher_error_check (p : ApiPayload) (h : isApiError p = true) :
    processPayload p = Except.error (apiErrorMsg p) ∧
    (∀ s, p.note = some s → s ≠ "" → apiErrorMsg p = s) ∧
    (p.note = none → p.information = none → p.message = none →
      apiErrorMsg p = "API rate limit reached") ∧
    processPayload ratePayload = Except.error "rate limited" := by
  refine ⟨by simp [processPayload, h], ?_, ?_, by rfl⟩
  · intro s hs hne
    simp [apiErrorMsg, optTruthy, hs, hne]
  · intro h1 h2 h3
    simp [apiErrorMsg, optTruthy, h1, h2, h3]

/-- C2 witness: the error-check theorem applied at the spec example
payload. -/
theorem universalFetcher_error_check_witness :
    processPayload ratePayload = Except.error (apiErrorMsg ratePayload) ∧
    (∀ s, ratePayload.note = some s → s ≠ "" → apiErrorMsg ratePayload = s) ∧
    (ratePayload.note = none → ratePayload.information = none → ratePayload.message = none →
      apiErrorMsg ratePayload = "API rate limit reached") ∧
    processPayload ratePayload = Except.error "rate limited" :=
  universalFetcher_error_check ratePayload rfl

/-- A set followed by a lookup of the same key finds the written entry. -/
theorem mapGet_mapSet_self {α : Type} (c : CacheState α) (k : String) (e : CEntry α) :
    mapGet (mapSet c k e) k = some e := by
  induction c with
  | nil => simp [mapSet, mapGet]
  | cons h t ih =>
      obtain ⟨k0, e0⟩ := h
      by_cases hk : k0 = k
      · simp [mapSet, hk, mapGet]
      · simpa [mapSet, hk, mapGet, List.find?] using ih

/-- Deleting a key makes its lookup absent. -/
theorem mapGet_mapDelete_self {α : Type} (c : CacheState α) (k : String) :
    mapGet (mapDelete c k) k = none := by
  have h : (mapDelete c k).find? (fun e => e.1 == k) = none := by
    refine List.find?_eq_none.mpr ?_
    intro x hx
    have hmem := List.of_mem_filter hx
    simpa using hmem
  simp [mapGet, h]

/-- Deleting a present key of a map with unique keys removes exactly one
entry. -/
theorem mapDelete_length {α : Type} (c : CacheState α) (k : String) (e : CEntry α)
    (hk : mapGet c k = some e) (hnd : (c.map Prod.fst).Nodup) :
    (mapDelete c k).length + 1 = c.length := by
  induction c with
  | nil => simp [mapGet] at hk
  | cons h t ih =>
      obtain ⟨k0, e0⟩ := h
      simp only [List.map_cons, List.nodup_cons] at hnd
      by_cases hke : k0 = k
      · subst hke
        have hrest : List.filter (fun e => e.1 != k0) t = t := by
          refine List.filter_eq_self.mpr ?_
          intro x hx
          have hne : x.1 ≠ k0 := fun hh => hnd.1 (hh ▸ List.mem_map_of_mem Prod.fst hx)
          simpa using hne
        simp [mapDelete, hrest]
      · have hfind : List.find? (fun e => e.1 == k) ((k0, e0) :: t) =
            List.find? (fun e => e.1 == k) t :=
          List.find?_cons_of_neg _ (by simpa using hke)
        have hk2 : mapGet t k = some e := by
          simpa [mapGet, hfind] using hk
        have ihh := ih hk2 hnd.2
        have hhead : (((k0, e0) : String × CEntry α).1 != k) = true := by simpa using hke
        simp only [mapDelete, List.filter_cons, hhead, if_true, List.length_cons] at ihh ⊢
        omega

/-- C3 amended: an immediate lookup after a set with positive ttl returns
the stored value; a never-set key is reported absent with the map
untouched; and a key whose expiry lies strictly in the past — not merely at
the current instant — is reported absent, evicted by the lookup, and no
longer counted by the size. -/
theorem cache_get_set_semantics {α : Type} (k : String) (v : α) (ttl now : Nat)
    (c : CacheState α) (hpos : 0 < ttl) :
    (getCachedData now (setCachedData now c k v ttl) k).1 = some v ∧
    (mapGet c k = none → getCachedData now c k = (none, c)) ∧
    (∀ e, mapGet c k = some e → now > e.expiry →
      (getCachedData now c k).1 = none ∧
      mapGet (getCachedData now c k).2 k = none ∧
      ((c.map Prod.fst).Nodup →
        getCacheSize (getCachedData now c k).2 + 1 = getCacheSize c)) := by
  refine ⟨?_, ?_, ?_⟩
  · have h := mapGet_mapSet_self c k (⟨v, now + ttl * 1000⟩ : CEntry α)
    have hlt : ¬ now > now + ttl * 1000 := by omega
    simp [getCachedData, setCachedData, h, hlt]
  · intro h
    simp [getCachedData, h]
  · intro e he hexp
    refine ⟨?_, ?_, ?_⟩
    · simp [getCachedData, he, hexp]
    · simp [getCachedData, he, hexp, mapGet_mapDelete_self]
    · intro hnd
      simp only [getCachedData, he, if_pos hexp]
      exact mapDelete_length c k e he hnd

/-- C3 witness: the amended cache theorem applied at a concrete key, value,
ttl and clock. -/
theorem cache_get_set_semantics_witness :
    (getCachedData 5 (setCachedData 5 ([] : CacheState Nat) "k" 42 30) "k").1 = some 42 ∧
    (mapGet ([] : CacheState Nat) "k" = none →
      getCachedData 5 ([] : CacheState Nat) "k" = (none, ([] : CacheState Nat))) ∧
    (∀ e, mapGet ([] : CacheState Nat) "k" = some e → 5 > e.expiry →
      (getCachedData 5 ([] : CacheState Nat) "k").1 = none ∧
      mapGet (getCachedData 5 ([] : CacheState Nat) "k").2 "k" = none ∧
      ((([] : CacheState Nat).map Prod.fst).Nodup →
        getCacheSize (getCachedData 5 ([] : CacheState Nat) "k").2 + 1 =
          getCacheSize ([] : CacheState Nat))) :=
  cache_get_set_semantics "k" 42 30 5 [] (by decide)

/-- C3 counterexample: with a set at time 0 and ttl 30 seconds the expiry
is 30000 milliseconds, and a lookup exactly at time 30000 — where the
claimed condition now at least expiry holds — still returns the stored
value, because getCachedData evicts only when the clock is strictly past
the expiry. -/
theorem cache_expiry_boundary_cex :
    setCachedData 0 ([] : CacheState Nat) "k" 42 30 = [("k", ⟨42, 30000⟩)] ∧
    (getCachedData 30000 [("k", (⟨42, 30000⟩ : CEntry Nat))] "k").1 = some 42 := by
  decide

/-- Modelled from the spec words of C9, for comparison only: the last
dot-separated segment of a path. -/
def specLastSegment (p : String) : String :=
  (splitDot p).getLastD p

/-- C9 counterexample: for the path that ends in a dot the last
dot-separated segment is empty, and the code labels the appended field
with the whole path instead (the split-pop result is falsy, so the
fallback applies). -/
theorem addField_label_cex :
    addField [] "a." = [{ path := "a.", label := "a." }] ∧
    specLastSegment "a." = "" ∧
    addField [] "a." ≠ [{ path := "a.", label := specLastSegment "a." }] := by
  decide

/-- C9 amended: adding a path already present leaves the selection
unchanged; adding an absent path appends exactly one field labelled with
the last dot-separated segment when that segment is nonempty and with the
whole path otherwise; and path uniqueness of the selection is preserved by
every add and every remove. -/
theorem addField_removeField_unique (fields : List SelectedField) (p : String) :
    ((∃ f ∈ fields, f.path = p) → addField fields p = fields) ∧
    ((∀ f ∈ fields, f.path ≠ p) →
      addField fields p = fields ++ [{ path := p, label := jsLastSegLabel p }]) ∧
    ((fields.map SelectedField.path).Nodup → ((addField fields p).map SelectedField.path).Nodup) ∧
    ((fields.map SelectedField.path).Nodup →
      ((removeField fields p).map SelectedField.path).Nodup) := by
  refine ⟨?_, ?_, ?_, ?_⟩
  · rintro ⟨f, hf, hp⟩
    have hsome : (fields.find? (fun f => f.path == p)).isSome := by
      refine List.find?_isSome.mpr ⟨f, hf, ?_⟩
      simp [hp]
    unfold addField
    cases hfind : fields.find? (fun f => f.path == p) with
    | some g => rfl
    | none => rw [hfind] at hsome; simp at hsome
  · intro h
    have hnone : fields.find? (fun f => f.path == p) = none := by
      refine List.find?_eq_none.mpr ?_
      intro x hx
      simp [h x hx]
    unfold addField
    rw [hnone]
  · intro hnd
    unfold addField
    cases hfind : fields.find? (fun f => f.path == p) with
    | some g => exact hnd
    | none =>
        have habs : p ∉ fields.map SelectedField.path := by
          intro hmem
          obtain ⟨f, hf, hfp⟩ := List.mem_map.mp hmem
          have := List.find?_eq_none.mp hfind f hf
          simp [hfp] at this
        simp only [List.map_append, List.map_cons, List.map_nil]
        refine List.nodup_append.mpr ⟨hnd, List.nodup_singleton p, ?_⟩
        intro a ha hb
        simp only [List.mem_singleton] at hb
        exact habs (hb ▸ ha)
  · intro hnd
    have hsub : List.Sublist ((removeField fields p).map SelectedField.path)
        (fields.map SelectedField.path) :=
      (List.filter_sublist fields).map SelectedField.path
    exact hnd.sublist hsub

/-- C9 witness: the amended theorem applied at a selection holding path a,
re-adding a (no-op) and adding the fresh path b.c. -/
theorem addField_removeField_unique_witness :
    addField [⟨"a", "a"⟩] "a" = [⟨"a", "a"⟩] ∧
    addField [⟨"a", "a"⟩] "b.c" =
      [⟨"a", "a"⟩] ++ [{ path := "b.c", label := jsLastSegLabel "b.c" }] :=
  ⟨(addField_removeField_unique [⟨"a", "a"⟩] "a").1 ⟨⟨"a", "a"⟩, by decide, rfl⟩,
   (addField_removeField_unique [⟨"a", "a"⟩] "b.c").2.1 (by decide)⟩

/-- C8: a save with an empty name, an empty URL or an empty field selection
is rejected with the validation message and leaves the widget list
untouched; with all three present and no widget under edit the save appends
exactly one widget whose id is the freshly generated one, and that id is
unique among the stored widgets whenever the generator output is fresh.
The random id generator of the source is modelled as the genId
parameter. -/
theorem saveWorkflow_validation (widgets : List WidgetConfig) (initialCfg : Option WidgetConfig)
    (name url : String) (refresh : Nat) (mode : DisplayMode) (fields : List SelectedField)
    (genId : String) (nowMs : Nat) :
    ((name = "" ∨ url = "" ∨ fields = []) →
      saveWorkflow widgets initialCfg name url refresh mode fields genId nowMs =
        (widgets, some saveValidationMsg)) ∧
    (name ≠ "" → url ≠ "" → fields ≠ [] → initialCfg = none →
      ∃ cfg, saveWorkflow widgets initialCfg name url refresh mode fields genId nowMs =
          (widgets ++ [cfg], none) ∧
        cfg.id = genId ∧ cfg.name = name ∧ cfg.apiUrl = url ∧ cfg.selectedFields = fields ∧
        (genId ∉ widgets.map WidgetConfig.id → (widgets.map WidgetConfig.id).Nodup →
          ((widgets ++ [cfg]).map WidgetConfig.id).Nodup)) := by
  constructor
  · intro h
    have hcond : (name = "" || url = "" || fields.length == 0) = true := by
      rcases h with h | h | h <;> simp [h]
    simp [saveWorkflow, handleSave, hcond]
  · intro h1 h2 h3 h4
    subst h4
    have hcond : (name = "" || url = "" || fields.length == 0) = false := by
      simp [h1, h2, h3]
    refine ⟨{ id := genId, name := name, apiUrl := url, refreshInterval := refresh,
              displayMode := mode, selectedFields := fields, createdAt := nowMs },
      ?_, rfl, rfl, rfl, rfl, ?_⟩
    · simp [saveWorkflow, handleSave, hcond]
    · intro habs hnd
      simp only [List.map_append, List.map_cons, List.map_nil]
      refine List.nodup_append.mpr ⟨hnd, List.nodup_singleton _, ?_⟩
      intro a ha hb
      simp only [List.mem_singleton] at hb
      exact habs (hb ▸ ha)

/-- C8 witness: the save theorem applied at concrete inputs, one rejected
save on an empty name and one accepted save that appends the new widget
with the generated id. -/
theorem saveWorkflow_validation_witness :
    saveWorkflow [] none "" "u" 30 DisplayMode.card [] "g" 0 = ([], some saveValidationMsg) ∧
    (∃ cfg, saveWorkflow [] none "n" "u" 30 DisplayMode.card [⟨"p", "p"⟩] "g" 0 =
        ([] ++ [cfg], none) ∧
      cfg.id = "g" ∧ cfg.name = "n" ∧ cfg.apiUrl = "u" ∧ cfg.selectedFields = [⟨"p", "p"⟩] ∧
      ("g" ∉ ([] : List WidgetConfig).map WidgetConfig.id →
        (([] : List WidgetConfig).map WidgetConfig.id).Nodup →
        (([] ++ [cfg]).map WidgetConfig.id).Nodup)) :=
  ⟨(saveWorkflow_validation [] none "" "u" 30 DisplayMode.card [] "g" 0).1 (Or.inl rfl),
   (saveWorkflow_validation [] none "n" "u" 30 DisplayMode.card [⟨"p", "p"⟩] "g" 0).2
     (by decide) (by decide) (by decide) rfl⟩

/-- Walking segments from undefined stays at undefined. -/
theorem resolveSegs_undef (l : List String) : resolveSegs JsVal.undef l = JsVal.undef := by
  induction l with
  | nil => rfl
  | cons s rest ih => simpa [resolveSegs, truthy] using ih

/-- A falsy accumulator followed by at least one further segment collapses
to undefined. -/
theorem resolveSegs_falsy (v : JsVal) (l : List String) (hv : truthy v = false)
    (hl : l ≠ []) : resolveSegs v l = JsVal.undef := by
  cases l with
  | nil => exact absurd rfl hl
  | cons s rest => simp [resolveSegs, hv, resolveSegs_undef]

/-- Segment walking splits over list append. -/
theorem resolveSegs_append (v : JsVal) (a b : List String) :
    resolveSegs v (a ++ b) = resolveSegs (resolveSegs v a) b := by
  induction a generalizing v with
  | nil => rfl
  | cons s rest ih => simp [resolveSegs, ih]

/-- C10: getNestedValue is total; the empty path and the lone-dot path
return the base object unchanged; a falsy base object with any other path
gives undefined; and whenever some proper prefix of the dot-split path
resolves to a falsy value, the whole lookup gives undefined rather than
failing. -/
theorem getNestedValue_total_safe (o : JsVal) (path : String) :
    (∃ r, getNestedValue o path = r) ∧
    (path = "" ∨ path = "." → getNestedValue o path = o) ∧
    (path ≠ "" → path ≠ "." → truthy o = false → getNestedValue o path = JsVal.undef) ∧
    (∀ pre post, path ≠ "" → path ≠ "." → splitDot path = pre ++ post → post ≠ [] →
      truthy (resolveSegs o pre) = false → getNestedValue o path = JsVal.undef) := by
  refine ⟨⟨_, rfl⟩, ?_, ?_, ?_⟩
  · intro h
    rcases h with h | h <;> simp [getNestedValue, h]
  · intro h1 h2 h3
    simp [getNestedValue, h1, h2, h3]
  · intro pre post h1 h2 hsplit hpost hfalsy
    by_cases ht : truthy o
    · have : resolveSegs o (splitDot path) = JsVal.undef := by
        rw [hsplit, resolveSegs_append]
        exact resolveSegs_falsy _ post hfalsy hpost
      simp [getNestedValue, h1, h2, ht, this]
    · simp [getNestedValue, h1, h2, ht]

/-- C10 witness: the safety theorem applied at a concrete object whose
field a is null, looked up under the path a.b. -/
theorem getNestedValue_total_safe_witness :
    getNestedValue (JsVal.obj [("a", JsVal.null)]) "a.b" = JsVal.undef :=
  (getNestedValue_total_safe (JsVal.obj [("a", JsVal.null)]) "a.b").2.2.2 ["a"] ["b"]
    (by decide) (by decide) (by decide) (by decide) (by rfl)

/-- The spec example payload: a values array of two records, newest
first. -/
def exValuesPayload : ApiPayload :=
  ⟨none, none, none, none, none,
    some [⟨"2024-01-02", "10", "12", "9", "11", "100"⟩,
          ⟨"2024-01-01", "8", "9", "7", "8", "50"⟩]⟩

/-- C1: an error-free payload carrying a values array of N records is
normalized to exactly N points in reversed order relative to the input:
the point at output index j is built from the input record at index
N - 1 - j, with time copied from the datetime field, the OHLC fields put
through parseFloat and the volume field through parseInt, and parseInt
yields an integer whenever it does not yield NaN. -/
theorem universalFetcher_values_normalization (p : ApiPayload) (l : List RawTsRecord)
    (hv : p.values = some l) (he : isApiError p = false) :
    processPayload p = Except.ok (FetchOutcome.series (normalizeValues l)) ∧
    (normalizeValues l).length = l.length ∧
    (∀ j r, j < l.length → l.get? (l.length - 1 - j) = some r →
      (normalizeValues l).get? j = some
        { time := r.datetime, «open» := jsParseFloat r.«open», high := jsParseFloat r.high,
          low := jsParseFloat r.low, close := jsParseFloat r.close,
          volume := jsParseInt r.volume }) ∧
    (∀ s : String, jsParseInt s = JsNum.nan ∨ ∃ z : ℤ, jsParseInt s = JsNum.finite (z : ℚ)) := by
  refine ⟨by simp [processPayload, he, hv], by simp [normalizeValues], ?_, ?_⟩
  · intro j r hj hr
    unfold normalizeValues
    rw [List.get?_reverse]
    · simp only [List.length_map]
      rw [List.get?_map, hr]
      rfl
    · simpa using hj
  · intro s
    unfold jsParseInt
    cases hmatch : s.data.dropWhile isWsChar with
    | nil =>
        simp only [hmatch]
        left
        rfl
    | cons c rest =>
        by_cases hc : c = '-'
        · subst hc
          simp only [hmatch]
          by_cases hd : (rest.takeWhile Char.isDigit).isEmpty
          · left
            simp [hd]
          · right
            exact ⟨-(digitsToNat (rest.takeWhile Char.isDigit) : ℤ), by push_cast; simp [hd]⟩
        · by_cases hc2 : c = '+'
          · subst hc2
            simp only [hmatch]
            by_cases hd : (rest.takeWhile Char.isDigit).isEmpty
            · left
              simp [hd, hc]
            · right
              exact ⟨(digitsToNat (rest.takeWhile Char.isDigit) : ℤ), by push_cast; simp [hd]⟩
          · simp only [hmatch]
            by_cases hd : ((c :: rest).takeWhile Char.isDigit).isEmpty
            · left
              simp [hd, hc, hc2]
            · right
              refine ⟨(digitsToNat ((c :: rest).takeWhile Char.isDigit) : ℤ), ?_⟩
              push_cast
              simp [hd, hc, hc2]

/-- C1 witness: the normalization theorem applied at the spec example
payload of two records. -/
theorem universalFetcher_values_normalization_witness :
    processPayload exValuesPayload = Except.ok (FetchOutcome.series (normalizeValues
      [⟨"2024-01-02", "10", "12", "9", "11", "100"⟩,
       ⟨"2024-01-01", "8", "9", "7", "8", "50"⟩])) ∧
    (normalizeValues [⟨"2024-01-02", "10", "12", "9", "11", "100"⟩,
       ⟨"2024-01-01", "8", "9", "7", "8", "50"⟩]).length =
      ([⟨"2024-01-02", "10", "12", "9", "11", "100"⟩,
        ⟨"2024-01-01", "8", "9", "7", "8", "50"⟩] : List RawTsRecord).length ∧
    (∀ j r, j < ([⟨"2024-01-02", "10", "12", "9", "11", "100"⟩,
        ⟨"2024-01-01", "8", "9", "7", "8", "50"⟩] : List RawTsRecord).length →
      ([⟨"2024-01-02", "10", "12", "9", "11", "100"⟩,
        ⟨"2024-01-01", "8", "9", "7", "8", "50"⟩] : List RawTsRecord).get?
          (([⟨"2024-01-02", "10", "12", "9", "11", "100"⟩,
             ⟨"2024-01-01", "8", "9", "7", "8", "50"⟩] : List RawTsRecord).length - 1 - j) =
        some r →
      (normalizeValues [⟨"2024-01-02", "10", "12", "9", "11", "100"⟩,
        ⟨"2024-01-01", "8", "9", "7", "8", "50"⟩]).get? j = some
        { time := r.datetime, «open» := jsParseFloat r.«open», high := jsParseFloat r.high,
          low := jsParseFloat r.low, close := jsParseFloat r.close,
          volume := jsParseInt r.volume }) ∧
    (∀ s : String, jsParseInt s = JsNum.nan ∨ ∃ z : ℤ, jsParseInt s = JsNum.finite (z : ℚ)) :=
  universalFetcher_values_normalization exValuesPayload
    [⟨"2024-01-02", "10", "12", "9", "11", "100"⟩,
     ⟨"2024-01-01", "8", "9", "7", "8", "50"⟩] rfl rfl

/-- Paths built under one prefix are injective in the key. -/
theorem mkPath_inj (p a b : String) (h : mkPath p a = mkPath p b) : a = b := by
  unfold mkPath at h
  by_cases hp : p = ""
  · simpa [hp] using h
  · rw [if_neg hp, if_neg hp] at h
    have hd := congrArg String.data h
    simp only [String.data_append] at hd
    exact String.ext (List.append_cancel_left hd)

/-- Every path of the direct per-key entries of one object traversal
arises from one of the object keys. -/
theorem directObj_path_mem (kvs : List (String × JsVal)) (p : String) (x : String)
    (hx : x ∈ (directObj kvs p).map Prod.fst) : ∃ kv ∈ kvs, x = mkPath p kv.1 := by
  induction kvs with
  | nil => simp [directObj] at hx
  | cons kv rest ih =>
      obtain ⟨k, v⟩ := kv
      simp only [directObj, List.map_append, List.mem_append] at hx
      cases hx with
      | inr h =>
          obtain ⟨kv2, hkv2, hx2⟩ := ih h
          exact ⟨kv2, List.mem_cons_of_mem _ hkv2, hx2⟩
      | inl h =>
          cases v <;> simp at h <;>
            exact ⟨(k, _), List.mem_cons_self _ _, h⟩

/-- With pairwise distinct keys, the direct entries of one object traversal
carry pairwise distinct paths. -/
theorem directObj_paths_nodup (kvs : List (String × JsVal)) (p : String)
    (hnd : (kvs.map Prod.fst).Nodup) : ((directObj kvs p).map Prod.fst).Nodup := by
  induction kvs with
  | nil => simp [directObj]
  | cons kv rest ih =>
      obtain ⟨k, v⟩ := kv
      simp only [List.map_cons, List.nodup_cons] at hnd
      have ihh := ih hnd.2
      have hnotin : mkPath p k ∉ (directObj rest p).map Prod.fst := by
        intro hmem
        obtain ⟨kv2, hkv2, heq⟩ := directObj_path_mem rest p _ hmem
        have hk : k = kv2.1 := mkPath_inj p _ _ heq
        exact hnd.1 (hk ▸ List.mem_map_of_mem Prod.fst hkv2)
      cases v
      case obj kvs2 => simpa [directObj] using ihh
      all_goals
        simp only [directObj, List.cons_append, List.nil_append, List.map_cons]
        exact List.nodup_cons.mpr ⟨hnotin, ihh⟩

/-- The direct entries of one object traversal form a sublist of the full
traversal output. -/
theorem directObj_sublist (kvs : List (String × JsVal)) (p : String) :
    List.Sublist (directObj kvs p) (flattenObj kvs p) := by
  induction kvs with
  | nil => simp [directObj, flattenObj]
  | cons kv rest ih =>
      obtain ⟨k, v⟩ := kv
      cases v
      case obj kvs2 =>
        simp only [directObj, flattenObj, List.nil_append]
        exact ih.trans (List.sublist_append_right _ _)
      case arr l2 =>
        simp only [directObj, flattenObj, List.cons_append, List.nil_append]
        exact List.Sublist.cons₂ _ (ih.trans (List.sublist_append_right _ _))
      all_goals
        simp only [directObj, flattenObj, List.cons_append, List.nil_append]
        exact List.Sublist.cons₂ _ ih

/-- The direct entries of any invocation form a sublist of its full
output. -/
theorem directEntries_sublist (v : JsVal) (p : String) :
    List.Sublist (directEntries v p) (flattenKeys v p) := by
  cases v with
  | arr l =>
      by_cases hp : p = ""
      · subst hp
        simp only [directEntries, flattenKeys, if_pos rfl]
        exact List.Sublist.cons₂ _ (List.nil_sublist _)
      · simp [directEntries, flattenKeys, hp]
  | obj kvs => simpa [directEntries, flattenKeys] using directObj_sublist kvs p
  | null => simp [directEntries, flattenKeys]
  | undef => simp [directEntries, flattenKeys]
  | bool b => simp [directEntries, flattenKeys]
  | num n => simp [directEntries, flattenKeys]
  | str s => simp [directEntries, flattenKeys]

/-- C4: flattenKeys is total — it is a function of the embedding, defined
by well-founded recursion on the value, so it terminates on every JSON
tree; a null or undefined root yields the empty sequence; and the entries
emitted at any single nesting level (one invocation) carry pairwise
distinct paths whenever the object keys are distinct, those direct entries
forming a sublist of the full result. -/
theorem flattenKeys_total_no_dup (v : JsVal) (p : String) :
    (∀ q : String, flattenKeys JsVal.null q = [] ∧ flattenKeys JsVal.undef q = []) ∧
    (∃ r, flattenKeys v p = r) ∧
    (∀ (l : List JsVal) (q : String), ((directEntries (JsVal.arr l) q).map Prod.fst).Nodup) ∧
    (∀ (kvs : List (String × JsVal)) (q : String), (kvs.map Prod.fst).Nodup →
      ((directEntries (JsVal.obj kvs) q).map Prod.fst).Nodup) ∧
    List.Sublist (directEntries v p) (flattenKeys v p) := by
  refine ⟨?_, ⟨_, rfl⟩, ?_, ?_, directEntries_sublist v p⟩
  · intro q
    exact ⟨by simp [flattenKeys], by simp [flattenKeys]⟩
  · intro l q
    by_cases hq : q = "" <;> simp [directEntries, hq]
  · intro kvs q hnd
    simpa [directEntries] using directObj_paths_nodup kvs q hnd

/-- C4 witness: the flattening theorem applied at a concrete two-key
object, discharging the distinct-keys hypothesis there. -/
theorem flattenKeys_total_no_dup_witness :
    ((directEntries (JsVal.obj [("a", JsVal.num (JsNum.finite 1)), ("b", JsVal.arr [])]) "").map
      Prod.fst).Nodup ∧
    List.Sublist
      (directEntries (JsVal.obj [("a", JsVal.num (JsNum.finite 1)), ("b", JsVal.arr [])]) "")
      (flattenKeys (JsVal.obj [("a", JsVal.num (JsNum.finite 1)), ("b", JsVal.arr [])]) "") :=
  ⟨(flattenKeys_total_no_dup
      (JsVal.obj [("a", JsVal.num (JsNum.finite 1)), ("b", JsVal.arr [])]) "").2.2.2.1
      [("a", JsVal.num (JsNum.finite 1)), ("b", JsVal.arr [])] "" (by decide),
   (flattenKeys_total_no_dup
      (JsVal.obj [("a", JsVal.num (JsNum.finite 1)), ("b", JsVal.arr [])]) "").2.2.2.2⟩

/-- A list is a prefix of itself followed by anything. -/
theorem isPrefixOf_self_append (l r : List Char) : l.isPrefixOf (l ++ r) = true := by
  induction l with
  | nil => simp [List.isPrefixOf]
  | cons c t ih => simp [List.isPrefixOf, ih]

/-- A prefix test cannot see past a character the pattern never contains. -/
theorem isPrefixOf_append_notMem (pat : List Char) (c : Char) (hc : c ∉ pat) :
    ∀ t rest : List Char, pat.isPrefixOf (t ++ c :: rest) = pat.isPrefixOf t := by
  induction pat with
  | nil => intro t rest; simp [List.isPrefixOf]
  | cons p ps ih =>
      intro t rest
      cases t with
      | nil =>
          have hcp : c ≠ p := by
            simp only [List.mem_cons, not_or] at hc
            exact hc.1
          have hpc : (p == c) = false := by simpa using Ne.symm hcp
          simp [List.isPrefixOf, hpc]
      | cons x t2 =>
          have hcps : c ∉ ps := by
            simp only [List.mem_cons, not_or] at hc
            exact hc.2
          simp [List.isPrefixOf, ih hcps t2 rest]

/-- Occurrences split across a separator character the pattern never
contains. -/
theorem countOccur_append_sep (pat : List Char) (hpat : pat ≠ []) (c : Char) (hc : c ∉ pat)
    (rest : List Char) :
    ∀ t : List Char, countOccur pat (t ++ c :: rest) = countOccur pat t + countOccur pat rest := by
  intro t
  induction t with
  | nil =>
      obtain ⟨p, ps, rfl⟩ : ∃ p ps, pat = p :: ps := by
        cases pat with
        | nil => exact absurd rfl hpat
        | cons p ps => exact ⟨p, ps, rfl⟩
      have hcp : c ≠ p := by
        simp only [List.mem_cons, not_or] at hc
        exact hc.1
      have hpc : (p == c) = false := by simpa using Ne.symm hcp
      simp [countOccur, List.isPrefixOf, hpc]
  | cons x t2 ih =>
      have hstep : (x :: t2) ++ c :: rest = x :: (t2 ++ c :: rest) := rfl
      rw [hstep]
      simp only [countOccur]
      have hpre : pat.isPrefixOf (x :: (t2 ++ c :: rest)) = pat.isPrefixOf (x :: t2) := by
        simpa using isPrefixOf_append_notMem pat c hc (x :: t2) rest
      rw [hpre, ih]
      omega

/-- A list with no occurrence of the pattern as a substring counts zero
occurrences. -/
theorem containsSub_false_countOccur (pat : List Char) :
    ∀ s : List Char, containsSub pat s = false → countOccur pat s = 0 := by
  intro s
  induction s with
  | nil =>
      intro h
      simp only [containsSub] at h
      simp [countOccur, h]
  | cons c rest ih =>
      intro h
      simp only [containsSub, Bool.or_eq_false_iff] at h
      simp [countOccur, h.1, ih h.2]

/-- The credential parameter name occurs exactly once in the appended tail,
as long as the configured key itself does not contain it. -/
theorem countOccur_apikey_self (key : List Char)
    (hk : containsSub ("apikey=").data key = false) :
    countOccur ("apikey=").data (("apikey=").data ++ key) = 1 := by
  have hd : ("apikey=" : String).data = ['a', 'p', 'i', 'k', 'e', 'y', '='] := rfl
  rw [hd] at hk ⊢
  have hz := containsSub_false_countOccur ['a', 'p', 'i', 'k', 'e', 'y', '='] key hk
  simp [countOccur, List.isPrefixOf, hz]

/-- A URL that reaches the finnhub branch of the decoration chain even
though it also contains the Alpha Vantage domain. -/
def cexUrl : String := "https://finnhub.io/api/v1/quote?symbol=alphavantage.co"

/-- C7 counterexample: a trimmed URL containing the alphavantage.co domain
and no apikey parameter for which the decoration appends no apikey
parameter at all, because the earlier finnhub.io branch of the else-if
chain captures the URL and appends a token parameter instead. -/
theorem universalFetcher_url_cex :
    strIncludes "alphavantage.co" (jsTrim cexUrl) = true ∧
    strIncludes "apikey=" (jsTrim cexUrl) = false ∧
    countOccur ("apikey=").data
      (decorateUrl FINNHUB_KEY_FALLBACK ALPHA_KEY_FALLBACK TWELVE_KEY_FALLBACK cexUrl).data =
      0 := by
  decide

/-- C7 amended: for every URL whose trimmed form contains alphavantage.co,
lacks an apikey parameter, and does not already satisfy the earlier
finnhub branch of the chain (no finnhub.io substring, or a token parameter
already present), the decoration appends the configured Alpha Vantage key
after an ampersand exactly when the trimmed URL contains a question mark
and after a question mark otherwise, and the result contains exactly one
apikey parameter; a URL matching none of the provider domains is returned
trimmed and otherwise untouched. -/
theorem universalFetcher_url_decoration (k1 k2 k3 url : String)
    (h1 : strIncludes "alphavantage.co" (jsTrim url) = true)
    (h2 : strIncludes "apikey=" (jsTrim url) = false)
    (h3 : strIncludes "finnhub.io" (jsTrim url) = true →
      strIncludes "token=" (jsTrim url) = true)
    (h4 : containsSub ("apikey=").data k2.data = false) :
    (decorateUrl k1 k2 k3 url =
      jsTrim url ++ (if strIncludes "?" (jsTrim url) then "&" else "?") ++ "apikey=" ++ k2) ∧
    countOccur ("apikey=").data (decorateUrl k1 k2 k3 url).data = 1 ∧
    (∀ u2 : String, strIncludes "finnhub.io" (jsTrim u2) = false →
      strIncludes "alphavantage.co" (jsTrim u2) = false →
      strIncludes "twelvedata.com" (jsTrim u2) = false →
      decorateUrl k1 k2 k3 u2 = jsTrim u2) := by
  have hbranch1 : (strIncludes "finnhub.io" (jsTrim url) &&
      !strIncludes "token=" (jsTrim url)) = false := by
    by_cases hf : strIncludes "finnhub.io" (jsTrim url)
    · simp [hf, h3 hf]
    · simp [hf]
  have heq : decorateUrl k1 k2 k3 url =
      jsTrim url ++ (if strIncludes "?" (jsTrim url) then "&" else "?") ++ "apikey=" ++ k2 := by
    rw [decorateUrl]
    rw [if_neg (by simp [hbranch1]), if_pos (by simp [h1, h2])]
  refine ⟨heq, ?_, ?_⟩
  · rw [heq]
    have hzero : countOccur ("apikey=").data (jsTrim url).data = 0 :=
      containsSub_false_countOccur _ _ h2
    have hone := countOccur_apikey_self k2.data h4
    by_cases hq : strIncludes "?" (jsTrim url)
    · have hdata : (jsTrim url ++ "&" ++ "apikey=" ++ k2).data =
          (jsTrim url).data ++ '&' :: (("apikey=").data ++ k2.data) := by
        simp [String.data_append]
      rw [if_pos hq, hdata,
        countOccur_append_sep _ (by decide) '&' (by decide) _ (jsTrim url).data, hzero, hone]
    · have hdata : (jsTrim url ++ "?" ++ "apikey=" ++ k2).data =
          (jsTrim url).data ++ '?' :: (("apikey=").data ++ k2.data) := by
        simp [String.data_append]
      rw [if_neg hq, hdata,
        countOccur_append_sep _ (by decide) '?' (by decide) _ (jsTrim url).data, hzero, hone]
  · intro u2 g1 g2 g3
    rw [decorateUrl]
    rw [if_neg (by simp [g1]), if_neg (by simp [g2]), if_neg (by simp [g3])]

/-- C7 witness: the decoration theorem applied at a concrete Alpha Vantage
URL and the committed fallback key. -/
theorem universalFetcher_url_decoration_witness :
    (decorateUrl "F" ALPHA_KEY_FALLBACK "T" "https://www.alphavantage.co/query?function=X" =
      jsTrim "https://www.alphavantage.co/query?function=X" ++
        (if strIncludes "?" (jsTrim "https://www.alphavantage.co/query?function=X")
         then "&" else "?") ++ "apikey=" ++ ALPHA_KEY_FALLBACK) ∧
    countOccur ("apikey=").data
      (decorateUrl "F" ALPHA_KEY_FALLBACK "T"
        "https://www.alphavantage.co/query?function=X").data = 1 ∧
    (∀ u2 : String, strIncludes "finnhub.io" (jsTrim u2) = false →
      strIncludes "alphavantage.co" (jsTrim u2) = false →
      strIncludes "twelvedata.com" (jsTrim u2) = false →
      decorateUrl "F" ALPHA_KEY_FALLBACK "T" u2 = jsTrim u2) :=
  universalFetcher_url_decoration "F" ALPHA_KEY_FALLBACK "T"
    "https://www.alphavantage.co/query?function=X" (by decide) (by decide)
    (fun h => absurd h (by decide)) (by decide)

end FinBoard
